import Mathlib

/-!
Shallow embedding of `src/train.py` (neural style transfer core):
the graph builder `get_style_model_and_losses` and the optimization
driver `run_style_transfer`.

The pretrained feature extractor is modelled as a list of layer kinds
(its numeric weights are opaque and irrelevant to the claims).  The
loss modules `ContentLoss` / `StyleLoss` and the `Normalization` module
live in `loss.py` / `utils.py`, which are not part of the source tree;
where their behavior matters it is modelled from the spec and marked so.
The two external framework collaborators are modelled per the spec's
data model: `nn.Sequential` as an ordered sequence of nodes to which
`add_module` appends (the spec's FeatureExtractorGraph, whose stable
layer names are labels of the sequence), and the L-BFGS optimizer as an
opaque schedule of image updates constrained only to evaluate the
closure at least once per outer step.
-/

namespace StyleTransfer

/-- A layer of the extractor, classified the way `get_style_model_and_losses`
classifies it via `isinstance`: `Conv2d`, `ReLU` (with its in-place flag),
`MaxPool2d`, `BatchNorm2d`, or any other class (carrying its class name). -/
inductive LayerKind where
  | conv : LayerKind
  | relu : Bool → LayerKind
  | pool : LayerKind
  | bn : LayerKind
  | other : String → LayerKind
  deriving DecidableEq, Repr

/-- A node of the model graph built by `get_style_model_and_losses`:
the leading `Normalization` module, a named extractor layer, or a probe
module (`ContentLoss` / `StyleLoss`, tagged with the conv counter used in
its module name `content_loss_i` / `style_loss_i`). -/
inductive RawNode where
  | norm : RawNode
  | layer : String → LayerKind → RawNode
  | contentP : Nat → RawNode
  | styleP : Nat → RawNode
  deriving DecidableEq, Repr

/-- `isinstance(layer, nn.Conv2d)`. -/
def isConvK : LayerKind → Bool
  | .conv => true
  | _ => false

/-- The layer kinds recognized by the builder's `if/elif` chain. -/
def isRecognized : LayerKind → Bool
  | .other _ => false
  | _ => true

/-- `layer.__class__.__name__` for the unrecognized branch. -/
def className : LayerKind → String
  | .other c => c
  | .conv => "Conv2d"
  | .relu _ => "ReLU"
  | .pool => "MaxPool2d"
  | .bn => "BatchNorm2d"

/-- The conv counter after seeing one layer: `i += 1` on `Conv2d`, else unchanged. -/
def nextCounter (i : Nat) (k : LayerKind) : Nat :=
  if isConvK k then i + 1 else i

/-- The name given to a recognized layer when the counter (after the
conv bump) is `i`: `conv_i`, `relu_i`, `pool_i`, `bn_i`. -/
def nameOf (k : LayerKind) (i : Nat) : String :=
  match k with
  | .conv => "conv_" ++ toString i
  | .relu _ => "relu_" ++ toString i
  | .pool => "pool_" ++ toString i
  | .bn => "bn_" ++ toString i
  | .other c => "unrecognized_" ++ c

/-- `layer = nn.ReLU(inplace=False)`: activations are rewritten out-of-place,
all other layers are appended unchanged. -/
def rewriteLayer : LayerKind → LayerKind
  | .relu _ => .relu false
  | k => k

/-- The probe modules appended right after a layer named `n` when the conv
counter is `i`: first the `ContentLoss` (if `n` is a configured content
layer), then the `StyleLoss` (if `n` is a configured style layer),
mirroring the two `if name in ...` blocks in order. -/
def probeNodes (cl sl : List String) (i : Nat) (n : String) : List RawNode :=
  (if n ∈ cl then [RawNode.contentP i] else [])
    ++ (if n ∈ sl then [RawNode.styleP i] else [])

/-- The graph segment contributed by one recognized layer: the named layer
followed by its probes. -/
def seg (cl sl : List String) (i : Nat) (k : LayerKind) : List RawNode :=
  RawNode.layer (nameOf k (nextCounter i k)) (rewriteLayer k)
    :: probeNodes cl sl (nextCounter i k) (nameOf k (nextCounter i k))

/-- The walk over `cnn.children()` with conv counter `i`: appends each
recognized layer and its probes, raises `RuntimeError` on anything else. -/
def buildAux (cl sl : List String) : Nat → List LayerKind → Except String (List RawNode)
  | _, [] => .ok []
  | i, k :: rest =>
    if isRecognized k then
      match buildAux cl sl (nextCounter i k) rest with
      | .error e => .error e
      | .ok ns => .ok (seg cl sl i k ++ ns)
    else
      .error ("Unrecognized layer: " ++ className k)

/-- The untruncated `model`: `nn.Sequential(normalization)` followed by the
walk over the extractor. -/
def buildModel (cl sl : List String) (layers : List LayerKind) :
    Except String (List RawNode) :=
  match buildAux cl sl 0 layers with
  | .error e => .error e
  | .ok ns => .ok (RawNode.norm :: ns)

/-- Is this node a `ContentLoss` or `StyleLoss` module? -/
def isProbe : RawNode → Bool
  | .contentP _ => true
  | .styleP _ => true
  | _ => false

/-- Index (from the back, 0-based) of the last probe in the list:
the Python loop `for i in range(len(model)-1, -1, -1): if probe: break`
scans the model in reverse and stops at the first probe it meets. -/
def revFindProbe : List RawNode → Option Nat
  | [] => none
  | x :: xs => if isProbe x then some 0 else (revFindProbe xs).map (· + 1)

/-- The value of `i` after the backward scan: the largest probe index, or
`0` when the loop falls through without a break (no probe at all). -/
def lastProbeIdx (m : List RawNode) : Nat :=
  match revFindProbe m.reverse with
  | some j => m.length - 1 - j
  | none => 0

/-- `model = model[:(i + 1)]`. -/
def truncateModel (m : List RawNode) : List RawNode :=
  m.take (lastProbeIdx m + 1)

/-- `get_style_model_and_losses`, restricted to the model it returns. -/
def getStyleModel (cl sl : List String) (layers : List LayerKind) :
    Except String (List RawNode) :=
  match buildModel cl sl layers with
  | .error e => .error e
  | .ok m => .ok (truncateModel m)

/-- The `content_losses` list returned alongside the model: exactly the
`ContentLoss` probes, in insertion order. -/
def contentProbesOf (m : List RawNode) : List RawNode :=
  m.filter (fun x => match x with | .contentP _ => true | _ => false)

/-- The `style_losses` list returned alongside the model: exactly the
`StyleLoss` probes, in insertion order. -/
def styleProbesOf (m : List RawNode) : List RawNode :=
  m.filter (fun x => match x with | .styleP _ => true | _ => false)

/-! ### Pure description of a successful build

Under the hypothesis that every layer is recognized, `buildAux` is the
flattening of the per-layer segments; the lemmas below establish this. -/

/-- The per-layer node segments of a successful walk. -/
def buildList (cl sl : List String) : Nat → List LayerKind → List RawNode
  | _, [] => []
  | i, k :: rest => seg cl sl i k ++ buildList cl sl (nextCounter i k) rest

/-- The conv counter after walking a list of layers. -/
def counterAfter (i : Nat) (l : List LayerKind) : Nat :=
  l.foldl nextCounter i

/-- The layer names generated by the walk, starting from counter `i`. -/
def genNamesAux : Nat → List LayerKind → List String
  | _, [] => []
  | i, k :: rest => nameOf k (nextCounter i k) :: genNamesAux (nextCounter i k) rest

/-- The layer names generated by the walk over the whole extractor. -/
def genNames (layers : List LayerKind) : List String :=
  genNamesAux 0 layers

/-- Does a generated name belong to the configured content or style layers? -/
def isProbeName (cl sl : List String) (n : String) : Prop :=
  n ∈ cl ∨ n ∈ sl

instance (cl sl : List String) (n : String) : Decidable (isProbeName cl sl n) := by
  unfold isProbeName; infer_instance

/-- Number of probes the walk inserts for a list of generated names. -/
def probeCount (cl sl : List String) (names : List String) : Nat :=
  (names.map (fun n => (if n ∈ cl then 1 else 0) + (if n ∈ sl then 1 else 0))).sum

/-! ### Optimization driver (`run_style_transfer`)

Images are flat lists of rational pixel values; the per-probe discrepancy
populated by a forward pass is modelled as an opaque function of the image
the forward pass reads (the extractor weights are frozen constants).  The
key dynamic-typing detail of the closure is kept: `style_score` and
`content_score` start as the Python int `0` and only become tensors once a
probe loss is added, and `loss.backward()` exists only on a tensor. -/

/-- A candidate image: a flat list of pixel values. -/
abbrev Img : Type := List ℚ

/-- `input_img.clamp_(0, 1)` on one pixel. -/
def clampPixel (x : ℚ) : ℚ := min 1 (max 0 x)

/-- `input_img.clamp_(0, 1)`. -/
def clampImage (img : Img) : Img := img.map clampPixel

/-- The runtime value of `style_score` / `content_score` in the closure:
the Python int `0` it is bound to initially, or a loss tensor with a
rational scalar value. -/
inductive Score where
  | intZero : Score
  | tensor : ℚ → Score
  deriving DecidableEq, Repr

/-- `score += sl.loss` (a probe's `.loss` is always a tensor). -/
def Score.addLoss : Score → ℚ → Score
  | .intZero, v => .tensor v
  | .tensor w, v => .tensor (w + v)

/-- `score *= weight` (`0 * w` stays the int `0`; a tensor scales). -/
def Score.scale : Score → ℚ → Score
  | .intZero, _ => .intZero
  | .tensor w, c => .tensor (w * c)

/-- `style_score + content_score` (int `0` is absorbed; two tensors add). -/
def Score.addS : Score → Score → Score
  | .intZero, s => s
  | .tensor w, .intZero => .tensor w
  | .tensor w, .tensor v => .tensor (w + v)

/-- Sum of the probe discrepancies evaluated on the image the forward
pass read. -/
def sumLosses (fs : List (Img → ℚ)) (x : Img) : ℚ :=
  (fs.map (fun f => f x)).sum

/-- One evaluation of `closure`, entered with `run[0] = run`: clamp the
candidate in place, forward it (each probe `f` in `slosses` / `closses`
stores discrepancy `f clamped`), accumulate the two scores, scale by the
weights, add, and call `loss.backward()` — an `AttributeError` if `loss`
is still the int `0`.  Then `run[0] += 1`, and every 50th evaluation the
progress report formats `style_score.item()` and `content_score.item()`
(style first, as evaluated) — an `AttributeError` if that score is still
the int `0` because its probe list is empty.  On success, returns the
clamped image (the in-place state) and the scalar handed back to the
optimizer, `style_score + content_score`. -/
def closureEval (slosses closses : List (Img → ℚ)) (sw cw : ℚ) (run : Nat)
    (img : Img) : Except String (Img × ℚ) :=
  let clamped := clampImage img
  let styleScore :=
    (slosses.foldl (fun s f => s.addLoss (f clamped)) Score.intZero).scale sw
  let contentScore :=
    (closses.foldl (fun s f => s.addLoss (f clamped)) Score.intZero).scale cw
  let loss := styleScore.addS contentScore
  match loss with
  | .intZero => .error "AttributeError: int object has no attribute backward"
  | .tensor v =>
    if (run + 1) % 50 = 0 then
      match styleScore, contentScore with
      | .intZero, _ => .error "AttributeError: int object has no attribute item"
      | _, .intZero => .error "AttributeError: int object has no attribute item"
      | _, _ => .ok (clamped, v)
    else
      .ok (clamped, v)

/-- The loop state of `run_style_transfer`: the candidate image, the
`run[0]` evaluation counter, the number of completed outer
`optimizer.step(closure)` calls, and the list of images the forward pass
has read (for stating the clamp invariant). -/
structure RunState where
  img : Img
  run : Nat
  outer : Nat
  reads : List Img
  deriving Repr

/-- A sequence of closure evaluations inside one `optimizer.step`: after
each evaluation the optimizer moves the candidate by an opaque update
`u` computed from its line search.  Each evaluation increments `run[0]`. -/
def evalSeq (slosses closses : List (Img → ℚ)) (sw cw : ℚ) :
    List (Img → Img) → RunState → Except String RunState
  | [], st => .ok st
  | u :: us, st =>
    match closureEval slosses closses sw cw st.run st.img with
    | .error e => .error e
    | .ok (clamped, _) =>
        evalSeq slosses closses sw cw us
          { img := u clamped, run := st.run + 1, outer := st.outer,
            reads := st.reads ++ [clamped] }

/-- One `optimizer.step(closure)`: L-BFGS evaluates the closure at least
once, so a step is one evaluation followed by any further line-search
evaluations. -/
def optStep (slosses closses : List (Img → ℚ)) (sw cw : ℚ)
    (st : RunState) (first : Img → Img) (more : List (Img → Img)) :
    Except String RunState :=
  evalSeq slosses closses sw cw (first :: more) st

theorem evalSeq_run (slosses closses : List (Img → ℚ)) (sw cw : ℚ) :
    ∀ (us : List (Img → Img)) (st st' : RunState),
      evalSeq slosses closses sw cw us st = .ok st' →
      st'.run = st.run + us.length ∧ st'.outer = st.outer
  | [], st, st', h => by
      simp only [evalSeq] at h
      cases h
      exact ⟨rfl, rfl⟩
  | u :: us, st, st', h => by
      simp only [evalSeq] at h
      cases hc : closureEval slosses closses sw cw st.run st.img with
      | error e => rw [hc] at h; exact absurd h (by simp)
      | ok p =>
        rw [hc] at h
        have := evalSeq_run slosses closses sw cw us _ st' h
        simpa [List.length_cons, Nat.add_assoc, Nat.add_comm 1 us.length] using this

/-- The `while run[0] <= num_steps:` loop.  `sched n` supplies the opaque
optimizer updates of outer step `n` (one mandatory evaluation plus the
extra line-search evaluations).  Terminates because every outer step
increments `run[0]` at least once. -/
def runLoop (slosses closses : List (Img → ℚ)) (sw cw : ℚ) (numSteps : Nat)
    (sched : Nat → (Img → Img) × List (Img → Img)) (iter : Nat) (st : RunState) :
    Except String RunState :=
  if h : st.run ≤ numSteps then
    match hstep : optStep slosses closses sw cw st (sched iter).1 (sched iter).2 with
    | .error e => .error e
    | .ok st' =>
        runLoop slosses closses sw cw numSteps sched (iter + 1)
          { st' with outer := st'.outer + 1 }
  else
    .ok st
  termination_by numSteps + 1 - st.run
  decreasing_by
    have hr := (evalSeq_run slosses closses sw cw _ _ _ hstep).1
    simp only [List.length_cons] at hr
    omega

/-- `run_style_transfer` after the model is built: set up gradients, run
the loop from `run[0] = 0`, then the final `input_img.clamp_(0, 1)`. -/
def runStyleTransferLoop (slosses closses : List (Img → ℚ)) (sw cw : ℚ)
    (numSteps : Nat) (sched : Nat → (Img → Img) × List (Img → Img))
    (img0 : Img) : Except String Img :=
  match runLoop slosses closses sw cw numSteps sched 0
      { img := img0, run := 0, outer := 0, reads := [] } with
  | .error e => .error e
  | .ok st => .ok (clampImage st.img)

/-- The gradient flags set by the driver before the loop
(`input_img.requires_grad_(True)`, `model.requires_grad_(False)`,
`model.eval()`). -/
structure GradSetup where
  inputRequiresGrad : Bool
  modelRequiresGrad : Bool
  modelEvalMode : Bool
  deriving DecidableEq, Repr

/-- Lines 125–127 of `train.py`. -/
def driverSetup : GradSetup :=
  { inputRequiresGrad := true, modelRequiresGrad := false, modelEvalMode := true }

/-- Modelled from the spec: `loss.backward()` computes gradients exactly
for the leaf tensors whose `requires_grad` flag is set; the two leaf
groups here are the candidate image and the graph parameters.  (The
autograd engine itself is external to the repository.) -/
def gradRecipients (s : GradSetup) : List String :=
  (if s.inputRequiresGrad then ["input_img"] else [])
    ++ (if s.modelRequiresGrad then ["model.parameters"] else [])

/-- The name under which a node was added to the `nn.Sequential` graph,
restricted to extractor layers (probes and the normalization are separate). -/
def nodeName : RawNode → Option String
  | .layer n _ => some n
  | _ => none

/-! ### Lemmas about the graph builder -/

theorem buildAux_ok (cl sl : List String) :
    ∀ (layers : List LayerKind) (i : Nat),
      (∀ k ∈ layers, isRecognized k = true) →
      buildAux cl sl i layers = .ok (buildList cl sl i layers)
  | [], _, _ => rfl
  | k :: rest, i, h => by
      have hk : isRecognized k = true := h k (List.mem_cons_self k rest)
      have hrest := buildAux_ok cl sl rest (nextCounter i k)
        (fun x hx => h x (List.mem_cons_of_mem k hx))
      simp only [buildAux, hk, if_true, hrest, buildList]

theorem buildList_append (cl sl : List String) (l₁ l₂ : List LayerKind) :
    ∀ i, buildList cl sl i (l₁ ++ l₂) =
      buildList cl sl i l₁ ++ buildList cl sl (counterAfter i l₁) l₂ := by
  induction l₁ with
  | nil => intro i; simp [buildList, counterAfter]
  | cons k rest ih =>
      intro i
      simp [buildList, counterAfter, ih (nextCounter i k), List.append_assoc]

theorem genNamesAux_append (l₁ l₂ : List LayerKind) :
    ∀ i, genNamesAux i (l₁ ++ l₂) =
      genNamesAux i l₁ ++ genNamesAux (counterAfter i l₁) l₂ := by
  induction l₁ with
  | nil => intro i; simp [genNamesAux, counterAfter]
  | cons k rest ih =>
      intro i
      simp [genNamesAux, counterAfter, ih (nextCounter i k)]

theorem genNamesAux_length : ∀ (l : List LayerKind) (i : Nat),
    (genNamesAux i l).length = l.length
  | [], _ => rfl
  | _ :: rest, i => by
      simp [genNamesAux, genNamesAux_length rest]

theorem probeNodes_length (cl sl : List String) (i : Nat) (n : String) :
    (probeNodes cl sl i n).length =
      (if n ∈ cl then 1 else 0) + (if n ∈ sl then 1 else 0) := by
  unfold probeNodes
  split <;> split <;> simp

theorem probeNodes_probe (cl sl : List String) (i : Nat) (n : String) :
    ∀ x ∈ probeNodes cl sl i n, isProbe x = true := by
  intro x hx
  unfold probeNodes at hx
  rcases List.mem_append.mp hx with h | h <;>
    [skip; skip] <;> split at h <;> simp_all [isProbe]

theorem probeNodes_eq_nil (cl sl : List String) (i : Nat) (n : String)
    (h : ¬ isProbeName cl sl n) : probeNodes cl sl i n = [] := by
  unfold probeNodes isProbeName at *
  push_neg at h
  simp [h.1, h.2]

theorem probeNodes_ne_nil (cl sl : List String) (i : Nat) (n : String)
    (h : isProbeName cl sl n) : probeNodes cl sl i n ≠ [] := by
  unfold probeNodes
  rcases h with h | h
  · simp [h]
  · intro hc
    rcases List.append_eq_nil.mp hc with ⟨_, h2⟩
    rw [if_pos h] at h2
    exact List.cons_ne_nil _ _ h2

theorem probeCount_cons (cl sl : List String) (n : String) (ns : List String) :
    probeCount cl sl (n :: ns) =
      ((if n ∈ cl then 1 else 0) + (if n ∈ sl then 1 else 0)) + probeCount cl sl ns := by
  simp [probeCount]

theorem probeCount_append (cl sl : List String) (ns₁ ns₂ : List String) :
    probeCount cl sl (ns₁ ++ ns₂) = probeCount cl sl ns₁ + probeCount cl sl ns₂ := by
  simp [probeCount]

theorem probeCount_zero (cl sl : List String) :
    ∀ (ns : List String), (∀ n ∈ ns, ¬ isProbeName cl sl n) →
      probeCount cl sl ns = 0
  | [], _ => rfl
  | n :: ns, h => by
      have hn := h n (List.mem_cons_self n ns)
      unfold isProbeName at hn
      push_neg at hn
      rw [probeCount_cons, if_neg hn.1, if_neg hn.2,
        probeCount_zero cl sl ns (fun x hx => h x (List.mem_cons_of_mem n hx))]

theorem buildList_length (cl sl : List String) :
    ∀ (l : List LayerKind) (i : Nat),
      (buildList cl sl i l).length = l.length + probeCount cl sl (genNamesAux i l)
  | [], _ => rfl
  | k :: rest, i => by
      simp only [buildList, seg, List.length_append, List.length_cons,
        probeNodes_length, genNamesAux, probeCount_cons,
        buildList_length cl sl rest (nextCounter i k)]
      omega

theorem buildList_noProbe (cl sl : List String) :
    ∀ (l : List LayerKind) (i : Nat),
      (∀ n ∈ genNamesAux i l, ¬ isProbeName cl sl n) →
      ∀ x ∈ buildList cl sl i l, isProbe x = false
  | [], _, _ => by intro x hx; exact absurd hx (List.not_mem_nil x)
  | k :: rest, i, h => by
      intro x hx
      have hhead : ¬ isProbeName cl sl (nameOf k (nextCounter i k)) :=
        h _ (by simp [genNamesAux])
      simp only [buildList, seg, probeNodes_eq_nil cl sl _ _ hhead,
        List.nil_append, List.cons_append, List.mem_cons] at hx
      rcases hx with rfl | hx
      · rfl
      · exact buildList_noProbe cl sl rest (nextCounter i k)
          (fun n hn => h n (by simp [genNamesAux, hn])) x hx

theorem revFindProbe_noProbe :
    ∀ (l : List RawNode), (∀ x ∈ l, isProbe x = false) → revFindProbe l = none
  | [], _ => rfl
  | x :: xs, h => by
      have hx : isProbe x = false := h x (List.mem_cons_self x xs)
      simp [revFindProbe, hx,
        revFindProbe_noProbe xs (fun y hy => h y (List.mem_cons_of_mem x hy))]

theorem revFindProbe_append_probe :
    ∀ (l₁ : List RawNode) (p : RawNode) (l₂ : List RawNode),
      (∀ x ∈ l₁, isProbe x = false) → isProbe p = true →
      revFindProbe (l₁ ++ p :: l₂) = some l₁.length
  | [], p, l₂, _, hp => by simp [revFindProbe, hp]
  | x :: xs, p, l₂, h, hp => by
      have hx : isProbe x = false := h x (List.mem_cons_self x xs)
      have ih := revFindProbe_append_probe xs p l₂
        (fun y hy => h y (List.mem_cons_of_mem x hy)) hp
      show revFindProbe (x :: (xs ++ p :: l₂)) = some (x :: xs).length
      rw [revFindProbe, if_neg (by simp [hx]), ih]
      rfl

theorem take_append_len {α : Type} :
    ∀ (l₁ l₂ : List α) (n : Nat), (l₁ ++ l₂).take (l₁.length + n) = l₁ ++ l₂.take n
  | [], l₂, n => by simp
  | a :: as, l₂, n => by
      simp only [List.cons_append, List.length_cons, List.take]
      rw [Nat.succ_add]
      simp only [List.take]
      rw [take_append_len as l₂ n]

/-- The backward truncation scan on a model of shape `C ++ [p] ++ B` with
`p` a probe and `B` probe-free keeps exactly `C ++ [p]`. -/
theorem truncate_concat_probe (C B : List RawNode) (p : RawNode)
    (hp : isProbe p = true) (hB : ∀ x ∈ B, isProbe x = false) :
    truncateModel ((C ++ [p]) ++ B) = C ++ [p] := by
  have hrev : ((C ++ [p]) ++ B).reverse = B.reverse ++ (p :: C.reverse) := by
    simp
  have hBrev : ∀ x ∈ B.reverse, isProbe x = false := by
    intro x hx; exact hB x (List.mem_reverse.mp hx)
  have hfind : revFindProbe (((C ++ [p]) ++ B).reverse) = some B.length := by
    rw [hrev, revFindProbe_append_probe B.reverse p C.reverse hBrev hp]
    simp
  have hidx : lastProbeIdx ((C ++ [p]) ++ B) = C.length := by
    unfold lastProbeIdx
    rw [hfind]
    simp only [List.length_append, List.length_cons, List.length_nil]
    omega
  unfold truncateModel
  rw [hidx]
  have : C.length + 1 = (C ++ [p]).length + 0 := by simp
  rw [this, take_append_len]
  simp

/-- When no probe was inserted at all, the scan falls through with `i = 0`
and `model[:1]` is just the normalization stage. -/
theorem truncate_noProbe (B : List RawNode)
    (hB : ∀ x ∈ B, isProbe x = false) :
    truncateModel (RawNode.norm :: B) = [RawNode.norm] := by
  have hfind : revFindProbe ((RawNode.norm :: B).reverse) = none := by
    apply revFindProbe_noProbe
    intro x hx
    rcases List.mem_cons.mp (List.mem_reverse.mp hx) with rfl | h
    · rfl
    · exact hB x h
  unfold truncateModel lastProbeIdx
  rw [hfind]
  rfl

theorem counterAfter_append (l₁ l₂ : List LayerKind) (i : Nat) :
    counterAfter i (l₁ ++ l₂) = counterAfter (counterAfter i l₁) l₂ := by
  simp [counterAfter, List.foldl_append]

theorem counterAfter_eq_countP :
    ∀ (l : List LayerKind) (i : Nat), counterAfter i l = i + l.countP isConvK
  | [], i => by simp [counterAfter]
  | k :: rest, i => by
      have ih := counterAfter_eq_countP rest (nextCounter i k)
      have h1 : counterAfter i (k :: rest) = counterAfter (nextCounter i k) rest := by
        simp [counterAfter]
      rw [h1, ih, List.countP_cons]
      unfold nextCounter
      by_cases hk : isConvK k = true
      · rw [if_pos hk, if_pos hk]; omega
      · rw [if_neg hk, if_neg hk]; omega

theorem genNamesAux_getElem? :
    ∀ (l : List LayerKind) (i j : Nat),
      (genNamesAux i l)[j]? =
        (l[j]?).map (fun k => nameOf k (counterAfter i (l.take (j + 1))))
  | [], i, j => by simp [genNamesAux]
  | k :: rest, i, 0 => by
      simp [genNamesAux, counterAfter]
  | k :: rest, i, j + 1 => by
      simp only [genNamesAux, List.getElem?_cons_succ, List.take,
        genNamesAux_getElem? rest (nextCounter i k) j]
      have : counterAfter i (k :: rest.take (j + 1)) =
          counterAfter (nextCounter i k) (rest.take (j + 1)) := by
        simp [counterAfter]
      rw [this]

theorem genNames_split (layers : List LayerKind) (J : Nat) :
    genNames layers =
      genNamesAux 0 (layers.take (J + 1))
        ++ genNamesAux (counterAfter 0 (layers.take (J + 1))) (layers.drop (J + 1)) := by
  unfold genNames
  conv_lhs => rw [← List.take_append_drop (J + 1) layers]
  rw [genNamesAux_append]

theorem genNames_drop_eq (layers : List LayerKind) (J : Nat) (hJ : J < layers.length) :
    (genNames layers).drop (J + 1) =
      genNamesAux (counterAfter 0 (layers.take (J + 1))) (layers.drop (J + 1)) := by
  have hlen : (genNamesAux 0 (layers.take (J + 1))).length = J + 1 := by
    rw [genNamesAux_length, List.length_take]
    omega
  calc (genNames layers).drop (J + 1)
      = (genNamesAux 0 (layers.take (J + 1))
          ++ genNamesAux (counterAfter 0 (layers.take (J + 1)))
              (layers.drop (J + 1))).drop
          (genNamesAux 0 (layers.take (J + 1))).length := by
        rw [genNames_split layers J, hlen]
    _ = genNamesAux (counterAfter 0 (layers.take (J + 1))) (layers.drop (J + 1)) :=
        List.drop_left _ _

theorem buildList_singleton (cl sl : List String) (i : Nat) (k : LayerKind) :
    buildList cl sl i [k] = seg cl sl i k := by
  show seg cl sl i k ++ buildList cl sl (nextCounter i k) [] = seg cl sl i k
  show seg cl sl i k ++ [] = seg cl sl i k
  exact List.append_nil _

/-- Decomposition of a successful walk at the layer generating the `J`-th
name: the graph is the part before that layer, then the layer with its
probes, then the part after it. -/
theorem build_split (cl sl : List String) (layers : List LayerKind) (J : Nat) (nJ : String)
    (hname : (genNames layers)[J]? = some nJ) :
    ∃ (hJ : J < layers.length),
      nJ = nameOf (layers.get ⟨J, hJ⟩) (counterAfter 0 (layers.take (J + 1))) ∧
      buildList cl sl 0 layers =
        buildList cl sl 0 (layers.take J)
          ++ (RawNode.layer nJ (rewriteLayer (layers.get ⟨J, hJ⟩))
              :: probeNodes cl sl (counterAfter 0 (layers.take (J + 1))) nJ)
          ++ buildList cl sl (counterAfter 0 (layers.take (J + 1))) (layers.drop (J + 1)) := by
  have hJ : J < layers.length := by
    by_contra hc
    push_neg at hc
    have : (genNames layers)[J]? = none := by
      apply List.getElem?_eq_none
      rw [genNames, genNamesAux_length]
      exact hc
    rw [this] at hname
    exact Option.noConfusion hname
  have hnameJ : nJ = nameOf (layers.get ⟨J, hJ⟩) (counterAfter 0 (layers.take (J + 1))) := by
    have h2 := genNamesAux_getElem? layers 0 J
    unfold genNames at hname
    rw [List.getElem?_eq_getElem hJ, hname] at h2
    simpa using h2
  refine ⟨hJ, hnameJ, ?_⟩
  have htake : layers.take (J + 1) = layers.take J ++ [layers.get ⟨J, hJ⟩] := by
    rw [List.take_succ, List.getElem?_eq_getElem hJ]
    rfl
  have hcJ : counterAfter 0 (layers.take (J + 1)) =
      nextCounter (counterAfter 0 (layers.take J)) (layers.get ⟨J, hJ⟩) := by
    rw [htake, counterAfter_append]
    simp [counterAfter]
  conv_lhs => rw [← List.take_append_drop (J + 1) layers]
  rw [buildList_append, htake, buildList_append]
  have hseg : buildList cl sl (counterAfter 0 (layers.take J)) [layers.get ⟨J, hJ⟩] =
      RawNode.layer nJ (rewriteLayer (layers.get ⟨J, hJ⟩))
        :: probeNodes cl sl (counterAfter 0 (layers.take (J + 1))) nJ := by
    rw [buildList_singleton]
    unfold seg
    rw [← hcJ, ← hnameJ]
  rw [hseg, ← htake]

theorem genNamesAux_singleton (i : Nat) (k : LayerKind) :
    genNamesAux i [k] = [nameOf k (nextCounter i k)] := rfl

theorem buildAux_error (cl sl : List String) (c : String) (rest : List LayerKind) :
    ∀ (pre : List LayerKind) (i : Nat), (∀ k ∈ pre, isRecognized k = true) →
      buildAux cl sl i (pre ++ LayerKind.other c :: rest)
        = .error ("Unrecognized layer: " ++ c)
  | [], i, _ => by simp [buildAux, isRecognized, className]
  | k :: pr, i, h => by
      have hk : isRecognized k = true := h k (List.mem_cons_self k pr)
      have ih := buildAux_error cl sl c rest pr (nextCounter i k)
        (fun x hx => h x (List.mem_cons_of_mem k hx))
      show buildAux cl sl i (k :: (pr ++ LayerKind.other c :: rest)) = _
      simp only [buildAux, hk, if_true, ih]

theorem probeNodes_names (cl sl : List String) (i : Nat) (n : String) :
    (probeNodes cl sl i n).filterMap nodeName = [] := by
  unfold probeNodes
  split <;> split <;> rfl

theorem buildList_names (cl sl : List String) :
    ∀ (l : List LayerKind) (i : Nat),
      (buildList cl sl i l).filterMap nodeName = genNamesAux i l
  | [], _ => rfl
  | k :: rest, i => by
      show ((RawNode.layer (nameOf k (nextCounter i k)) (rewriteLayer k)
          :: probeNodes cl sl (nextCounter i k) (nameOf k (nextCounter i k)))
          ++ buildList cl sl (nextCounter i k) rest).filterMap nodeName = _
      rw [List.filterMap_append, List.filterMap_cons]
      simp only [nodeName, probeNodes_names, buildList_names cl sl rest (nextCounter i k)]
      rfl

/-- C4: a layer kind outside the recognized four makes construction fail
immediately at the first such layer with a `RuntimeError` naming it;
only the error is returned, so no partially built graph reaches the
caller. -/
theorem unrecognized_layer_fails (cl sl : List String)
    (pre rest : List LayerKind) (c : String)
    (hpre : ∀ k ∈ pre, isRecognized k = true) :
    getStyleModel cl sl (pre ++ LayerKind.other c :: rest)
      = .error ("Unrecognized layer: " ++ c) := by
  unfold getStyleModel buildModel
  rw [buildAux_error cl sl c rest pre 0 hpre]

theorem unrecognized_layer_fails_witness :
    getStyleModel ["conv_4"] ["conv_1", "conv_2", "conv_3", "conv_4", "conv_5"]
        [LayerKind.conv, LayerKind.other "Dropout", LayerKind.pool]
      = .error "Unrecognized layer: Dropout" :=
  unrecognized_layer_fails ["conv_4"] ["conv_1", "conv_2", "conv_3", "conv_4", "conv_5"]
    [LayerKind.conv] [LayerKind.pool] "Dropout" (by decide)

/-- C6: each appended layer is named `conv_k`, `relu_k`, `pool_k` or
`bn_k` by its kind, where `k` is the 1-based count of convolutions seen
so far: it bumps exactly at convolution layers and every other layer
inherits the current value. -/
theorem layer_naming (cl sl : List String) (layers : List LayerKind)
    (hrec : ∀ k ∈ layers, isRecognized k = true) :
    ∃ ns, buildAux cl sl 0 layers = .ok ns ∧
      ns.filterMap nodeName = genNames layers ∧
      ∀ J (hJ : J < layers.length),
        (genNames layers)[J]? =
          some (nameOf (layers.get ⟨J, hJ⟩) ((layers.take (J + 1)).countP isConvK)) := by
  refine ⟨buildList cl sl 0 layers, buildAux_ok cl sl layers 0 hrec,
    buildList_names cl sl layers 0, ?_⟩
  intro J hJ
  have h2 := genNamesAux_getElem? layers 0 J
  rw [List.getElem?_eq_getElem hJ] at h2
  rw [genNames, h2, counterAfter_eq_countP]
  simp

theorem layer_naming_witness :
    ∃ ns, buildAux ["conv_4"] ["conv_1", "conv_2", "conv_3", "conv_4", "conv_5"] 0
        [LayerKind.conv, LayerKind.relu true, LayerKind.pool, LayerKind.conv, LayerKind.bn]
        = .ok ns ∧
      ns.filterMap nodeName = genNames
        [LayerKind.conv, LayerKind.relu true, LayerKind.pool, LayerKind.conv, LayerKind.bn] ∧
      ∀ J (hJ : J < ([LayerKind.conv, LayerKind.relu true, LayerKind.pool,
          LayerKind.conv, LayerKind.bn] : List LayerKind).length),
        (genNames [LayerKind.conv, LayerKind.relu true, LayerKind.pool,
            LayerKind.conv, LayerKind.bn])[J]? =
          some (nameOf (([LayerKind.conv, LayerKind.relu true, LayerKind.pool,
              LayerKind.conv, LayerKind.bn] : List LayerKind).get ⟨J, hJ⟩)
            ((([LayerKind.conv, LayerKind.relu true, LayerKind.pool,
              LayerKind.conv, LayerKind.bn] : List LayerKind).take (J + 1)).countP isConvK)) :=
  layer_naming ["conv_4"] ["conv_1", "conv_2", "conv_3", "conv_4", "conv_5"]
    [LayerKind.conv, LayerKind.relu true, LayerKind.pool, LayerKind.conv, LayerKind.bn]
    (by decide)

/-- C10: when no configured content or style name occurs among the
generated names (in particular when both sets are empty), no probe is
inserted, the backward scan stops at index 0, and the returned graph is
exactly the NormalizationStage. -/
theorem no_probe_graph (cl sl : List String) (layers : List LayerKind)
    (hrec : ∀ k ∈ layers, isRecognized k = true)
    (habs : ∀ n ∈ genNames layers, ¬ isProbeName cl sl n) :
    getStyleModel cl sl layers = .ok [RawNode.norm] := by
  unfold getStyleModel buildModel
  rw [buildAux_ok cl sl layers 0 hrec]
  show Except.ok (truncateModel (RawNode.norm :: buildList cl sl 0 layers)) = _
  rw [truncate_noProbe _ (buildList_noProbe cl sl layers 0 habs)]

theorem no_probe_graph_witness :
    getStyleModel [] []
        [LayerKind.conv, LayerKind.relu true, LayerKind.pool]
      = .ok [RawNode.norm] :=
  no_probe_graph [] []
    [LayerKind.conv, LayerKind.relu true, LayerKind.pool] (by decide) (by decide)

/-- C1: for an extractor of recognized layers, when the `J`-th generated
layer name is configured as a content or style layer and no later one is,
construction succeeds and returns the prefix ending exactly at the last
probe: the final node of the returned graph is a probe, and the node
count is the extractor prefix length `J + 1` up to the last configured
probe layer, plus one NormalizationStage, plus the number of probes
inserted. -/
theorem graph_construction_truncates (cl sl : List String) (layers : List LayerKind)
    (hrec : ∀ k ∈ layers, isRecognized k = true)
    (J : Nat) (nJ : String)
    (hname : (genNames layers)[J]? = some nJ)
    (hmatch : isProbeName cl sl nJ)
    (hlast : ∀ n ∈ (genNames layers).drop (J + 1), ¬ isProbeName cl sl n) :
    ∃ m, getStyleModel cl sl layers = .ok m ∧
      (∃ p, m.getLast? = some p ∧ isProbe p = true) ∧
      m.length = (J + 1) + 1 + probeCount cl sl (genNames layers) := by
  obtain ⟨hJ, hnameJ, hsplit⟩ := build_split cl sl layers J nJ hname
  rcases List.eq_nil_or_concat (probeNodes cl sl (counterAfter 0 (layers.take (J + 1))) nJ)
    with hnil | ⟨q, p, hqp⟩
  · exact absurd hnil (probeNodes_ne_nil _ _ _ _ hmatch)
  rw [List.concat_eq_append] at hqp
  have hp : isProbe p = true :=
    probeNodes_probe cl sl (counterAfter 0 (layers.take (J + 1))) nJ p (by simp [hqp])
  -- the graph splits as (C ++ [p]) ++ B with B probe-free
  have hB : ∀ x ∈ buildList cl sl (counterAfter 0 (layers.take (J + 1)))
      (layers.drop (J + 1)), isProbe x = false := by
    apply buildList_noProbe
    intro n hn
    exact hlast n (by rw [genNames_drop_eq layers J hJ]; exact hn)
  have hmodel : RawNode.norm :: buildList cl sl 0 layers =
      ((RawNode.norm :: (buildList cl sl 0 (layers.take J)
          ++ (RawNode.layer nJ (rewriteLayer (layers.get ⟨J, hJ⟩)) :: q))) ++ [p])
        ++ buildList cl sl (counterAfter 0 (layers.take (J + 1))) (layers.drop (J + 1)) := by
    rw [hsplit, hqp]
    simp [List.append_assoc]
  have htrunc : truncateModel (RawNode.norm :: buildList cl sl 0 layers) =
      (RawNode.norm :: (buildList cl sl 0 (layers.take J)
          ++ (RawNode.layer nJ (rewriteLayer (layers.get ⟨J, hJ⟩)) :: q))) ++ [p] := by
    rw [hmodel]
    exact truncate_concat_probe _ _ p hp hB
  refine ⟨(RawNode.norm :: (buildList cl sl 0 (layers.take J)
      ++ (RawNode.layer nJ (rewriteLayer (layers.get ⟨J, hJ⟩)) :: q))) ++ [p],
    ?_, ⟨p, List.getLast?_concat _, hp⟩, ?_⟩
  · unfold getStyleModel buildModel
    rw [buildAux_ok cl sl layers 0 hrec]
    show Except.ok (truncateModel (RawNode.norm :: buildList cl sl 0 layers)) = _
    rw [htrunc]
  -- length bookkeeping
  · have htake : layers.take (J + 1) = layers.take J ++ [layers.get ⟨J, hJ⟩] := by
      rw [List.take_succ, List.getElem?_eq_getElem hJ]
      rfl
    have hlen1 : (buildList cl sl 0 (layers.take J)).length =
        J + probeCount cl sl (genNamesAux 0 (layers.take J)) := by
      rw [buildList_length, List.length_take]
      omega
    have hnames1 : genNamesAux 0 (layers.take (J + 1)) =
        genNamesAux 0 (layers.take J) ++ [nJ] := by
      rw [htake, genNamesAux_append, genNamesAux_singleton]
      have : nextCounter (counterAfter 0 (layers.take J)) (layers.get ⟨J, hJ⟩) =
          counterAfter 0 (layers.take (J + 1)) := by
        rw [htake, counterAfter_append]
        simp [counterAfter]
      rw [this, ← hnameJ]
    have hq : q.length + 1 =
        (if nJ ∈ cl then 1 else 0) + (if nJ ∈ sl then 1 else 0) := by
      have := probeNodes_length cl sl (counterAfter 0 (layers.take (J + 1))) nJ
      rw [hqp] at this
      simp at this
      omega
    have hPC : probeCount cl sl (genNames layers) =
        probeCount cl sl (genNamesAux 0 (layers.take J))
          + ((if nJ ∈ cl then 1 else 0) + (if nJ ∈ sl then 1 else 0)) := by
      rw [genNames_split layers J, probeCount_append, hnames1, probeCount_append,
        probeCount_zero cl sl
          (genNamesAux (counterAfter 0 (layers.take (J + 1))) (layers.drop (J + 1)))
          (by
            intro n hn
            exact hlast n (by rw [genNames_drop_eq layers J hJ]; exact hn))]
      simp only [probeCount, List.map_cons, List.map_nil, List.sum_cons, List.sum_nil]
      omega
    simp only [List.length_append, List.length_cons, List.length_nil]
    omega

theorem graph_construction_truncates_witness :
    ∃ m, getStyleModel ["conv_1"] ["relu_1"]
        [LayerKind.conv, LayerKind.relu false, LayerKind.conv, LayerKind.pool]
      = .ok m ∧
      (∃ p, m.getLast? = some p ∧ isProbe p = true) ∧
      m.length = (1 + 1) + 1 + probeCount ["conv_1"] ["relu_1"]
        (genNames [LayerKind.conv, LayerKind.relu false, LayerKind.conv, LayerKind.pool]) :=
  graph_construction_truncates ["conv_1"] ["relu_1"]
    [LayerKind.conv, LayerKind.relu false, LayerKind.conv, LayerKind.pool]
    (by decide) 1 "relu_1" (by decide) (by decide) (by decide)

/-- The graph-so-far through which the probe sitting at position `p` of
the built model ran the reference image to freeze its target
(`target = model(img).detach()` is evaluated on the `nn.Sequential`
containing everything inserted before that probe). -/
def targetGraph (m : List RawNode) (p : Nat) : List RawNode := m.take p

/-- C9: when a layer name is configured both as a content and as a style
layer, both probes are inserted immediately after that layer, the
ContentProbe first, and the StyleProbe's frozen target is computed by a
forward pass through a graph-so-far that already contains that
ContentProbe. -/
theorem dual_probe_order (cl sl : List String) (layers : List LayerKind)
    (hrec : ∀ k ∈ layers, isRecognized k = true)
    (J : Nat) (nJ : String)
    (hname : (genNames layers)[J]? = some nJ)
    (hc : nJ ∈ cl) (hs : nJ ∈ sl) :
    ∃ m g₁ g₂ kk,
      buildModel cl sl layers = .ok m ∧
      m = g₁ ++ RawNode.layer nJ kk
            :: RawNode.contentP ((layers.take (J + 1)).countP isConvK)
            :: RawNode.styleP ((layers.take (J + 1)).countP isConvK) :: g₂ ∧
      targetGraph m (g₁.length + 2) =
        g₁ ++ [RawNode.layer nJ kk,
          RawNode.contentP ((layers.take (J + 1)).countP isConvK)] ∧
      RawNode.contentP ((layers.take (J + 1)).countP isConvK)
        ∈ targetGraph m (g₁.length + 2) := by
  obtain ⟨hJ, hnameJ, hsplit⟩ := build_split cl sl layers J nJ hname
  have hcount : counterAfter 0 (layers.take (J + 1)) =
      (layers.take (J + 1)).countP isConvK := by
    rw [counterAfter_eq_countP]
    omega
  have hpn : probeNodes cl sl (counterAfter 0 (layers.take (J + 1))) nJ =
      [RawNode.contentP ((layers.take (J + 1)).countP isConvK),
        RawNode.styleP ((layers.take (J + 1)).countP isConvK)] := by
    unfold probeNodes
    rw [if_pos hc, if_pos hs, hcount]
    rfl
  have hmodel : RawNode.norm :: buildList cl sl 0 layers =
      (RawNode.norm :: buildList cl sl 0 (layers.take J))
        ++ RawNode.layer nJ (rewriteLayer (layers.get ⟨J, hJ⟩))
          :: RawNode.contentP ((layers.take (J + 1)).countP isConvK)
          :: RawNode.styleP ((layers.take (J + 1)).countP isConvK)
          :: buildList cl sl (counterAfter 0 (layers.take (J + 1)))
              (layers.drop (J + 1)) := by
    rw [hsplit, hpn]
    simp
  refine ⟨RawNode.norm :: buildList cl sl 0 layers,
    RawNode.norm :: buildList cl sl 0 (layers.take J),
    buildList cl sl (counterAfter 0 (layers.take (J + 1))) (layers.drop (J + 1)),
    rewriteLayer (layers.get ⟨J, hJ⟩), ?_, hmodel, ?_, ?_⟩
  · unfold buildModel
    rw [buildAux_ok cl sl layers 0 hrec]
  · unfold targetGraph
    rw [hmodel]
    rw [take_append_len]
    rfl
  · unfold targetGraph
    rw [hmodel, take_append_len]
    simp

theorem dual_probe_order_witness :
    ∃ m g₁ g₂ kk,
      buildModel ["conv_1"] ["conv_1"] [LayerKind.conv, LayerKind.relu false] = .ok m ∧
      m = g₁ ++ RawNode.layer "conv_1" kk
            :: RawNode.contentP ((([LayerKind.conv, LayerKind.relu false] :
                  List LayerKind).take (0 + 1)).countP isConvK)
            :: RawNode.styleP ((([LayerKind.conv, LayerKind.relu false] :
                  List LayerKind).take (0 + 1)).countP isConvK) :: g₂ ∧
      targetGraph m (g₁.length + 2) =
        g₁ ++ [RawNode.layer "conv_1" kk,
          RawNode.contentP ((([LayerKind.conv, LayerKind.relu false] :
              List LayerKind).take (0 + 1)).countP isConvK)] ∧
      RawNode.contentP ((([LayerKind.conv, LayerKind.relu false] :
          List LayerKind).take (0 + 1)).countP isConvK)
        ∈ targetGraph m (g₁.length + 2) :=
  dual_probe_order ["conv_1"] ["conv_1"] [LayerKind.conv, LayerKind.relu false]
    (by decide) 0 "conv_1" (by decide) (by decide) (by decide)

/-! ### Lemmas about the optimization driver -/

theorem score_foldl_tensor (x : Img) :
    ∀ (fs : List (Img → ℚ)) (a : ℚ),
      fs.foldl (fun s f => s.addLoss (f x)) (Score.tensor a) =
        Score.tensor (a + sumLosses fs x)
  | [], a => by simp [sumLosses]
  | f :: fs, a => by
      show (f :: fs).foldl (fun s f => s.addLoss (f x)) (Score.tensor a) = _
      rw [List.foldl_cons]
      show fs.foldl (fun s f => s.addLoss (f x)) (Score.tensor (a + f x)) = _
      rw [score_foldl_tensor x fs (a + f x)]
      simp [sumLosses, add_assoc]

theorem score_foldl_cons (x : Img) (f : Img → ℚ) (fs : List (Img → ℚ)) :
    (f :: fs).foldl (fun s g => s.addLoss (g x)) Score.intZero =
      Score.tensor (sumLosses (f :: fs) x) := by
  rw [List.foldl_cons]
  show fs.foldl (fun s g => s.addLoss (g x)) (Score.tensor (f x)) = _
  rw [score_foldl_tensor x fs (f x)]
  simp [sumLosses]

/-- Characterization of a successful closure evaluation: with at least
one probe present, and unless this is a 50th evaluation with one of the
two probe lists empty (the progress report then crashes), the closure
succeeds and hands the optimizer
`style_score * style_weight + content_score * content_weight`, the
discrepancies being read off the clamped image. -/
theorem closureEval_ok (slosses closses : List (Img → ℚ)) (sw cw : ℚ)
    (run : Nat) (img : Img)
    (hne : slosses ≠ [] ∨ closses ≠ [])
    (hrep : (slosses ≠ [] ∧ closses ≠ []) ∨ (run + 1) % 50 ≠ 0) :
    closureEval slosses closses sw cw run img =
      .ok (clampImage img,
        sumLosses slosses (clampImage img) * sw
          + sumLosses closses (clampImage img) * cw) := by
  rcases slosses with _ | ⟨f, fs⟩ <;> rcases closses with _ | ⟨g, gs⟩
  · simp at hne
  · have hr : (run + 1) % 50 ≠ 0 := by
      rcases hrep with ⟨h1, _⟩ | h
      · exact absurd rfl h1
      · exact h
    simp only [closureEval, List.foldl_nil, score_foldl_cons]
    simp [Score.addS, Score.scale, sumLosses, hr]
  · have hr : (run + 1) % 50 ≠ 0 := by
      rcases hrep with ⟨_, h2⟩ | h
      · exact absurd rfl h2
      · exact h
    simp only [closureEval, List.foldl_nil, score_foldl_cons]
    simp [Score.addS, Score.scale, sumLosses, hr]
  · simp only [closureEval, score_foldl_cons]
    by_cases hr : (run + 1) % 50 = 0 <;>
      simp [Score.addS, Score.scale, sumLosses, hr]

theorem closureEval_empty (sw cw : ℚ) (run : Nat) (img : Img) :
    closureEval [] [] sw cw run img =
      .error "AttributeError: int object has no attribute backward" := rfl

/-- At every 50th evaluation the progress report formats
`style_score.item()` and `content_score.item()`; if one probe list is
empty, that score is still the Python int `0` and the closure raises
`AttributeError` instead of returning a loss. -/
theorem closureEval_item_fails (slosses closses : List (Img → ℚ)) (sw cw : ℚ)
    (run : Nat) (img : Img)
    (hone : slosses = [] ∨ closses = []) (hne : slosses ≠ [] ∨ closses ≠ [])
    (hrep : (run + 1) % 50 = 0) :
    closureEval slosses closses sw cw run img =
      .error "AttributeError: int object has no attribute item" := by
  rcases slosses with _ | ⟨f, fs⟩ <;> rcases closses with _ | ⟨g, gs⟩
  · simp at hne
  · simp only [closureEval, List.foldl_nil, score_foldl_cons]
    simp [Score.addS, Score.scale, hrep]
  · simp only [closureEval, List.foldl_nil, score_foldl_cons]
    simp [Score.addS, Score.scale, hrep]
  · simp at hone

/-- Inversion of a successful closure evaluation: whatever branch
returned, the pair is the clamped image and the weighted sum of the
probe discrepancies read off it. -/
theorem closureEval_ok_inv (slosses closses : List (Img → ℚ)) (sw cw : ℚ)
    (run : Nat) (img c : Img) (v : ℚ)
    (h : closureEval slosses closses sw cw run img = .ok (c, v)) :
    c = clampImage img ∧
      v = sumLosses slosses (clampImage img) * sw
        + sumLosses closses (clampImage img) * cw := by
  rcases slosses with _ | ⟨f, fs⟩ <;> rcases closses with _ | ⟨g, gs⟩
  · rw [closureEval_empty] at h
    exact absurd h (by simp)
  · simp only [closureEval, List.foldl_nil, score_foldl_cons,
      Score.scale, Score.addS, ite_self] at h
    split at h
    · exact absurd h (by simp)
    · simp only [Except.ok.injEq, Prod.mk.injEq] at h
      refine ⟨h.1.symm, ?_⟩
      rw [← h.2]
      show sumLosses (g :: gs) (clampImage img) * cw = _
      have h0 : sumLosses ([] : List (Img → ℚ)) (clampImage img) = 0 := rfl
      rw [h0, zero_mul, zero_add]
  · simp only [closureEval, List.foldl_nil, score_foldl_cons,
      Score.scale, Score.addS, ite_self] at h
    split at h
    · exact absurd h (by simp)
    · simp only [Except.ok.injEq, Prod.mk.injEq] at h
      refine ⟨h.1.symm, ?_⟩
      rw [← h.2]
      show sumLosses (f :: fs) (clampImage img) * sw = _
      have h0 : sumLosses ([] : List (Img → ℚ)) (clampImage img) = 0 := rfl
      rw [h0, zero_mul, add_zero]
  · simp only [closureEval, score_foldl_cons, Score.scale, Score.addS,
      ite_self] at h
    simp only [Except.ok.injEq, Prod.mk.injEq] at h
    exact ⟨h.1.symm, h.2.symm⟩

/-- C2: on every evaluation of the closure that hands a scalar back to
the optimizer, that scalar equals `styleWeight` times the sum of all
style-probe discrepancies plus `contentWeight` times the sum of all
content-probe discrepancies (read off the clamped image the forward pass
saw), and the gradient-flag setup routes the gradient of that loss to
the candidate image only. -/
theorem closure_loss_formula (slosses closses : List (Img → ℚ)) (sw cw : ℚ)
    (run : Nat) (img c : Img) (v : ℚ)
    (h : closureEval slosses closses sw cw run img = .ok (c, v)) :
    v = sw * sumLosses slosses c + cw * sumLosses closses c ∧
      gradRecipients driverSetup = ["input_img"] := by
  obtain ⟨rfl, hv⟩ := closureEval_ok_inv slosses closses sw cw run img c v h
  exact ⟨by rw [hv]; ring, rfl⟩

theorem closure_loss_formula_witness :
    (2 : ℚ) * 3 + 0 =
        3 * sumLosses [fun _ => 2] (clampImage [2])
          + 5 * sumLosses [] (clampImage [2]) ∧
      gradRecipients driverSetup = ["input_img"] := by
  have h := closure_loss_formula [fun _ => (2 : ℚ)] [] 3 5 0 [2] (clampImage [2])
    ((2 : ℚ) * 3 + 0) (by
      rw [closureEval_ok [fun _ => (2 : ℚ)] [] 3 5 0 [2] (Or.inl (by simp))
        (Or.inr (by norm_num))]
      simp [sumLosses])
  exact h

/-- C3 (code bug): with no probe at all — both configured layer-name
sets empty, hence `style_losses` and `content_losses` both empty — the
closure's `loss` is still the Python int `0`, so `loss.backward()`
raises `AttributeError` on the very first evaluation, and the driver
aborts instead of completing a zero-loss run that returns the clamped
initial image. -/
theorem empty_probe_lists_backward_fails :
    closureEval [] [] 100000 5 0 [(1 : ℚ)/2] =
        .error "AttributeError: int object has no attribute backward" ∧
      runStyleTransferLoop [] [] 100000 5 150 (fun _ => (id, [])) [(1 : ℚ)/2] =
        .error "AttributeError: int object has no attribute backward" := by
  refine ⟨rfl, ?_⟩
  have hopt : optStep [] [] 100000 5
      { img := [(1 : ℚ)/2], run := 0, outer := 0, reads := [] } id [] =
      .error "AttributeError: int object has no attribute backward" := rfl
  have hloop : runLoop [] [] 100000 5 150 (fun _ => (id, [])) 0
      { img := [(1 : ℚ)/2], run := 0, outer := 0, reads := [] } =
      .error "AttributeError: int object has no attribute backward" := by
    rw [runLoop, dif_pos (by decide)]
    split
    · next e heq =>
        rw [hopt] at heq
        cases heq
        rfl
    · next st1 heq =>
        rw [hopt] at heq
        exact absurd heq (by simp)
  unfold runStyleTransferLoop
  rw [hloop]

theorem clampPixel_bounds (x : ℚ) : 0 ≤ clampPixel x ∧ clampPixel x ≤ 1 :=
  ⟨le_min (by norm_num) (le_max_left 0 x), min_le_left 1 _⟩

theorem clampImage_bounds (img : Img) : ∀ x ∈ clampImage img, 0 ≤ x ∧ x ≤ 1 := by
  intro x hx
  rcases List.mem_map.mp hx with ⟨y, _, rfl⟩
  exact clampPixel_bounds y

theorem closureEval_ok_fst (slosses closses : List (Img → ℚ)) (sw cw : ℚ)
    (run : Nat) (img c : Img) (v : ℚ)
    (h : closureEval slosses closses sw cw run img = .ok (c, v)) :
    c = clampImage img :=
  (closureEval_ok_inv slosses closses sw cw run img c v h).1

theorem evalSeq_reads (slosses closses : List (Img → ℚ)) (sw cw : ℚ) :
    ∀ (us : List (Img → Img)) (st st' : RunState),
      evalSeq slosses closses sw cw us st = .ok st' →
      (∀ r ∈ st.reads, ∃ x, r = clampImage x) →
      ∀ r ∈ st'.reads, ∃ x, r = clampImage x
  | [], st, st', h, hst => by
      simp only [evalSeq] at h
      cases h
      exact hst
  | u :: us, st, st', h, hst => by
      simp only [evalSeq] at h
      cases hc : closureEval slosses closses sw cw st.run st.img with
      | error e => rw [hc] at h; exact absurd h (by simp)
      | ok p =>
        rw [hc] at h
        have hcl : p.1 = clampImage st.img :=
          closureEval_ok_fst slosses closses sw cw st.run st.img p.1 p.2 hc
        refine evalSeq_reads slosses closses sw cw us _ st' h ?_
        intro r hr
        rcases List.mem_append.mp hr with hr | hr
        · exact hst r hr
        · rcases List.mem_singleton.mp hr with rfl
          exact ⟨st.img, hcl⟩

theorem runLoop_reads (slosses closses : List (Img → ℚ)) (sw cw : ℚ)
    (numSteps : Nat) (sched : Nat → (Img → Img) × List (Img → Img)) :
    ∀ (iter : Nat) (st : RunState), ∀ st',
      runLoop slosses closses sw cw numSteps sched iter st = .ok st' →
      (∀ r ∈ st.reads, ∃ x, r = clampImage x) →
      ∀ r ∈ st'.reads, ∃ x, r = clampImage x := by
  intro iter st
  induction iter, st using runLoop.induct slosses closses sw cw numSteps sched with
  | case1 iter st h e hstep =>
      intro st' hok hst
      rw [runLoop, dif_pos h, hstep] at hok
      exact absurd hok (by simp)
  | case2 iter st h st1 hstep ih =>
      intro st' hok hst
      rw [runLoop, dif_pos h, hstep] at hok
      simp only [] at hok
      refine ih st' hok ?_
      exact evalSeq_reads slosses closses sw cw _ st st1 hstep hst
  | case3 iter st h =>
      intro st' hok hst
      rw [runLoop, dif_neg h] at hok
      cases hok
      exact hst

theorem runLoop_outer_bound (slosses closses : List (Img → ℚ)) (sw cw : ℚ)
    (numSteps : Nat) (sched : Nat → (Img → Img) × List (Img → Img)) :
    ∀ (iter : Nat) (st : RunState), ∀ st',
      runLoop slosses closses sw cw numSteps sched iter st = .ok st' →
      st'.outer ≤ st.outer + (numSteps + 1 - st.run) := by
  intro iter st
  induction iter, st using runLoop.induct slosses closses sw cw numSteps sched with
  | case1 iter st h e hstep =>
      intro st' hok
      rw [runLoop, dif_pos h, hstep] at hok
      exact absurd hok (by simp)
  | case2 iter st h st1 hstep ih =>
      intro st' hok
      rw [runLoop, dif_pos h, hstep] at hok
      simp only [] at hok
      have hr := evalSeq_run slosses closses sw cw _ st st1 hstep
      have hb : st'.outer ≤ (st1.outer + 1) + (numSteps + 1 - st1.run) := ih st' hok
      simp only [List.length_cons] at hr
      omega
  | case3 iter st h =>
      intro st' hok
      rw [runLoop, dif_neg h] at hok
      cases hok
      omega

theorem runLoop_run_single (slosses closses : List (Img → ℚ)) (sw cw : ℚ)
    (numSteps : Nat) (sched : Nat → (Img → Img) × List (Img → Img))
    (hsingle : ∀ n, (sched n).2 = []) :
    ∀ (iter : Nat) (st : RunState), ∀ st',
      runLoop slosses closses sw cw numSteps sched iter st = .ok st' →
      st.run ≤ numSteps + 1 → st'.run = numSteps + 1 := by
  intro iter st
  induction iter, st using runLoop.induct slosses closses sw cw numSteps sched with
  | case1 iter st h e hstep =>
      intro st' hok hle
      rw [runLoop, dif_pos h, hstep] at hok
      exact absurd hok (by simp)
  | case2 iter st h st1 hstep ih =>
      intro st' hok hle
      rw [runLoop, dif_pos h, hstep] at hok
      simp only [] at hok
      have hr := evalSeq_run slosses closses sw cw _ st st1 hstep
      rw [hsingle iter] at hr
      simp only [List.length_cons, List.length_nil] at hr
      exact ih st' hok (show st1.run ≤ numSteps + 1 by omega)
  | case3 iter st h =>
      intro st' hok hle
      rw [runLoop, dif_neg h] at hok
      cases hok
      omega

/-- C5: on every closure evaluation the candidate is clamped, outside the
gradient tape, before the forward pass reads it, and again after the
loop: every pixel value ever read by a forward pass lies in `[0,1]`, and
every pixel of the returned image lies in `[0,1]`. -/
theorem clamp_invariant (slosses closses : List (Img → ℚ)) (sw cw : ℚ)
    (numSteps : Nat) (sched : Nat → (Img → Img) × List (Img → Img))
    (img0 : Img) (st' : RunState)
    (h : runLoop slosses closses sw cw numSteps sched 0
        { img := img0, run := 0, outer := 0, reads := [] } = .ok st') :
    (∀ r ∈ st'.reads, ∀ x ∈ r, 0 ≤ x ∧ x ≤ 1) ∧
      runStyleTransferLoop slosses closses sw cw numSteps sched img0 =
        .ok (clampImage st'.img) ∧
      ∀ x ∈ clampImage st'.img, 0 ≤ x ∧ x ≤ 1 := by
  refine ⟨?_, ?_, clampImage_bounds st'.img⟩
  · intro r hr
    obtain ⟨x, rfl⟩ := runLoop_reads slosses closses sw cw numSteps sched 0 _ st' h
      (by intro r hr; exact absurd hr (List.not_mem_nil r)) r hr
    exact clampImage_bounds x
  · unfold runStyleTransferLoop
    rw [h]

/-- C7: the loop performs at most `num_steps + 1` outer optimizer steps
(each invoking the closure at least once and bumping the counter per
evaluation), and when the optimizer performs exactly one evaluation per
outer step the final counter value is exactly `steps + 1`; extra
line-search evaluations per outer step only shorten the outer count. -/
theorem loop_step_bound (slosses closses : List (Img → ℚ)) (sw cw : ℚ)
    (numSteps : Nat) (sched : Nat → (Img → Img) × List (Img → Img))
    (st0 st' : RunState) (h0 : st0.run = 0) (houter : st0.outer = 0)
    (hok : runLoop slosses closses sw cw numSteps sched 0 st0 = .ok st') :
    st'.outer ≤ numSteps + 1 ∧
      ((∀ n, (sched n).2 = []) → st'.run = numSteps + 1) := by
  constructor
  · have := runLoop_outer_bound slosses closses sw cw numSteps sched 0 st0 st' hok
    omega
  · intro hsingle
    exact runLoop_run_single slosses closses sw cw numSteps sched hsingle 0 st0 st' hok
      (by omega)

/-- A fully concrete one-step run used to instantiate the loop theorems:
one style probe of constant discrepancy 1, `num_steps = 0`, identity
optimizer updates. -/
theorem runLoop_concrete :
    runLoop [fun _ => (1 : ℚ)] [] 1 1 0 (fun _ => (id, [])) 0
        { img := [1/2], run := 0, outer := 0, reads := [] } =
      .ok { img := clampImage [1/2], run := 1, outer := 1,
            reads := [clampImage [1/2]] } := by
  have hopt : optStep [fun _ => (1 : ℚ)] [] 1 1
      { img := [1/2], run := 0, outer := 0, reads := [] } id [] =
      .ok { img := clampImage [1/2], run := 1, outer := 0,
            reads := [clampImage [1/2]] } := by
    unfold optStep evalSeq
    rw [closureEval_ok [fun _ => (1 : ℚ)] [] 1 1 0 [1/2] (Or.inl (by simp))
      (Or.inr (by norm_num))]
    rfl
  rw [runLoop, dif_pos (by decide)]
  split
  · next e heq =>
      rw [hopt] at heq
      exact absurd heq (by simp)
  · next st1 heq =>
      rw [hopt] at heq
      cases heq
      rw [runLoop, dif_neg (by decide)]

theorem clamp_invariant_witness :
    (∀ r ∈ ({ img := clampImage [1/2], run := 1, outer := 1,
              reads := [clampImage [1/2]] } : RunState).reads,
        ∀ x ∈ r, 0 ≤ x ∧ x ≤ 1) ∧
      runStyleTransferLoop [fun _ => (1 : ℚ)] [] 1 1 0 (fun _ => (id, [])) [1/2] =
        .ok (clampImage ({ img := clampImage [1/2], run := 1, outer := 1,
                           reads := [clampImage [1/2]] } : RunState).img) ∧
      ∀ x ∈ clampImage ({ img := clampImage [1/2], run := 1, outer := 1,
                          reads := [clampImage [1/2]] } : RunState).img,
        0 ≤ x ∧ x ≤ 1 :=
  clamp_invariant [fun _ => (1 : ℚ)] [] 1 1 0 (fun _ => (id, [])) [1/2] _
    runLoop_concrete

theorem loop_step_bound_witness :
    ({ img := clampImage [1/2], run := 1, outer := 1,
       reads := [clampImage [1/2]] } : RunState).outer ≤ 0 + 1 ∧
      ((∀ n : Nat, ((id : Img → Img), ([] : List (Img → Img))).2 = []) →
        ({ img := clampImage [1/2], run := 1, outer := 1,
           reads := [clampImage [1/2]] } : RunState).run = 0 + 1) :=
  loop_step_bound [fun _ => (1 : ℚ)] [] 1 1 0 (fun _ => (id, []))
    { img := [1/2], run := 0, outer := 0, reads := [] } _ rfl rfl runLoop_concrete

theorem buildList_no_style (cl sl : List String) :
    ∀ (l : List LayerKind) (i : Nat),
      (∀ n ∈ genNamesAux i l, n ∉ sl) →
      styleProbesOf (buildList cl sl i l) = []
  | [], _, _ => rfl
  | k :: rest, i, h => by
      have hn : nameOf k (nextCounter i k) ∉ sl := h _ (by simp [genNamesAux])
      have hrest := buildList_no_style cl sl rest (nextCounter i k)
        (fun n hn2 => h n (by simp [genNamesAux, hn2]))
      show styleProbesOf ((RawNode.layer (nameOf k (nextCounter i k)) (rewriteLayer k)
          :: probeNodes cl sl (nextCounter i k) (nameOf k (nextCounter i k)))
          ++ buildList cl sl (nextCounter i k) rest) = []
      unfold styleProbesOf at hrest ⊢
      rw [List.filter_append, List.filter_cons, hrest]
      have hpn : List.filter
          (fun x => match x with | RawNode.styleP _ => true | _ => false)
          (probeNodes cl sl (nextCounter i k) (nameOf k (nextCounter i k))) = [] := by
        unfold probeNodes
        rw [if_neg hn]
        split <;> rfl
      simp [hpn]

theorem runLoop_item_crash (closses : List (Img → ℚ)) (hc : closses ≠ [])
    (sw cw : ℚ) (numSteps : Nat) (h49 : 49 ≤ numSteps)
    (sched : Nat → (Img → Img) × List (Img → Img))
    (hsingle : ∀ n, (sched n).2 = []) :
    ∀ (iter : Nat) (st : RunState), st.run ≤ 49 →
      runLoop [] closses sw cw numSteps sched iter st =
        .error "AttributeError: int object has no attribute item" := by
  intro iter st
  induction iter, st using runLoop.induct [] closses sw cw numSteps sched with
  | case1 iter st h e hstep =>
      intro hle
      rw [runLoop, dif_pos h, hstep]
      by_cases h49eq : st.run = 49
      · have hclo : closureEval [] closses sw cw st.run st.img =
            .error "AttributeError: int object has no attribute item" :=
          closureEval_item_fails [] closses sw cw st.run st.img (Or.inl rfl)
            (Or.inr hc) (by rw [h49eq])
        have hopt2 : optStep [] closses sw cw st (sched iter).1 (sched iter).2 =
            .error "AttributeError: int object has no attribute item" := by
          rw [hsingle iter]
          show evalSeq [] closses sw cw [(sched iter).1] st = _
          simp only [evalSeq, hclo]
        rw [hstep] at hopt2
        cases hopt2
        rfl
      · have hclo := closureEval_ok [] closses sw cw st.run st.img (Or.inr hc)
          (Or.inr (by omega))
        have hopt2 : optStep [] closses sw cw st (sched iter).1 (sched iter).2 =
            .ok { img := (sched iter).1 (clampImage st.img), run := st.run + 1,
                  outer := st.outer, reads := st.reads ++ [clampImage st.img] } := by
          rw [hsingle iter]
          show evalSeq [] closses sw cw [(sched iter).1] st = _
          simp only [evalSeq, hclo]
        rw [hstep] at hopt2
        exact absurd hopt2 (by simp)
  | case2 iter st h st1 hstep ih =>
      intro hle
      by_cases h49eq : st.run = 49
      · exfalso
        have hclo : closureEval [] closses sw cw st.run st.img =
            .error "AttributeError: int object has no attribute item" :=
          closureEval_item_fails [] closses sw cw st.run st.img (Or.inl rfl)
            (Or.inr hc) (by rw [h49eq])
        have hopt2 : optStep [] closses sw cw st (sched iter).1 (sched iter).2 =
            .error "AttributeError: int object has no attribute item" := by
          rw [hsingle iter]
          show evalSeq [] closses sw cw [(sched iter).1] st = _
          simp only [evalSeq, hclo]
        rw [hstep] at hopt2
        exact absurd hopt2 (by simp)
      · rw [runLoop, dif_pos h, hstep]
        have hr := evalSeq_run [] closses sw cw _ st st1 hstep
        rw [hsingle iter] at hr
        simp only [List.length_cons, List.length_nil] at hr
        exact ih (show st1.run ≤ 49 by omega)
  | case3 iter st h =>
      intro hle
      exact absurd (Nat.le_trans hle h49) h

/-- C8 (code bug): a configured style-layer name that never occurs among
the generated names silently yields an empty style-probe list while
construction succeeds (no error), and each closure evaluation away from
the 50-step report boundary degrades the total loss to
`contentWeight * (sum of content discrepancies)` — but the driver does
NOT tolerate the empty list over a full default-length run: at the 50th
evaluation the progress report calls `.item()` on the int-0 style score
and raises `AttributeError`, aborting the run instead of completing (the
content case is symmetric). -/
theorem missing_layer_degrades (cl sl : List String) (layers : List LayerKind)
    (hrec : ∀ k ∈ layers, isRecognized k = true)
    (habs : ∀ n ∈ sl, n ∉ genNames layers)
    (closses : List (Img → ℚ)) (hc : closses ≠ [])
    (sw cw : ℚ) :
    (∃ m, buildModel cl sl layers = .ok m ∧ styleProbesOf m = []) ∧
      (∀ (run : Nat) (img : Img), (run + 1) % 50 ≠ 0 →
        closureEval [] closses sw cw run img =
          .ok (clampImage img, cw * sumLosses closses (clampImage img))) ∧
      (∀ (sched : Nat → (Img → Img) × List (Img → Img)),
        (∀ n, (sched n).2 = []) → ∀ (img0 : Img),
        runStyleTransferLoop [] closses sw cw 150 sched img0 =
          .error "AttributeError: int object has no attribute item") := by
  refine ⟨?_, ?_, ?_⟩
  · refine ⟨RawNode.norm :: buildList cl sl 0 layers, ?_, ?_⟩
    · unfold buildModel
      rw [buildAux_ok cl sl layers 0 hrec]
    · show List.filter _ (RawNode.norm :: buildList cl sl 0 layers) = []
      rw [List.filter_cons]
      have := buildList_no_style cl sl layers 0
        (fun n hn hns => habs n hns hn)
      unfold styleProbesOf at this
      simp [this]
  · intro run img hrun
    rw [closureEval_ok [] closses sw cw run img (Or.inr hc) (Or.inr hrun)]
    have h0 : sumLosses [] (clampImage img) = 0 := rfl
    rw [h0]
    ring_nf
  · intro sched hsingle img0
    have hcrash := runLoop_item_crash closses hc sw cw 150 (by omega) sched hsingle 0
      { img := img0, run := 0, outer := 0, reads := [] } (Nat.zero_le 49)
    unfold runStyleTransferLoop
    rw [hcrash]

theorem missing_layer_degrades_witness :
    (∃ m, buildModel ["conv_1"] ["conv_9"] [LayerKind.conv, LayerKind.relu true]
        = .ok m ∧ styleProbesOf m = []) ∧
      (∀ (run : Nat) (img : Img), (run + 1) % 50 ≠ 0 →
        closureEval [] [fun _ => (2 : ℚ)] 100000 5 run img =
          .ok (clampImage img, 5 * sumLosses [fun _ => (2 : ℚ)] (clampImage img))) ∧
      (∀ (sched : Nat → (Img → Img) × List (Img → Img)),
        (∀ n, (sched n).2 = []) → ∀ (img0 : Img),
        runStyleTransferLoop [] [fun _ => (2 : ℚ)] 100000 5 150 sched img0 =
          .error "AttributeError: int object has no attribute item") :=
  missing_layer_degrades ["conv_1"] ["conv_9"] [LayerKind.conv, LayerKind.relu true]
    (by decide) (by decide) [fun _ => (2 : ℚ)] (by simp) 100000 5

end StyleTransfer
